import Mathlib

/-!
Verification of the `dedup` indexing pipeline (package `commands/index`).

The Go source is shallowly embedded: the path filter of `visit`, the
`filepath.Walk` callback with its cancellation `select`, the `digest`
worker body, the writer loop of `Execute` (INSERT OR REPLACE into the
`entries` table), and the per-root orchestration of `Execute`.
-/

namespace Dedup

/-- A compiled pattern, abstracted to its `MatchString` behaviour. -/
abbrev Pattern := String → Bool

/-- The first loop of the walk callback in `visit`: the path is skipped as
soon as one pattern of `accepts` fails to match (`if !accept.MatchString(path) { return nil }`). -/
def matchesAccepts : List Pattern → String → Bool
  | [], _ => true
  | a :: rest, path => if !(a path) then false else matchesAccepts rest path

/-- The second loop of the walk callback in `visit`: the path is skipped as
soon as one pattern of `rejects` matches (`if reject.MatchString(path) { return nil }`). -/
def matchesRejects : List Pattern → String → Bool
  | [], _ => false
  | r :: rest, path => if r path then true else matchesRejects rest path

/-- A regular file's path survives both filter loops of the walk callback. -/
def passesFilter (accepts rejects : List Pattern) (path : String) : Bool :=
  matchesAccepts accepts path && !(matchesRejects rejects path)

/-- The admission rule in the words of the specification: the accept set is
empty OR the path matches at least one accept pattern, and the path matches
none of the reject patterns. Used only to compare against `passesFilter`. -/
def specPasses (accepts rejects : List Pattern) (path : String) : Bool :=
  (accepts.isEmpty || accepts.any (fun a => a path)) &&
    !(rejects.any (fun r => r path))

/-- One filesystem object offered to the walk callback: its path, whether
`info.Mode().IsRegular()` holds, and the enumeration error (the `err`
argument of the callback), if any. -/
structure Node where
  path : String
  isRegular : Bool
  enumError : Option String
deriving DecidableEq

/-- The walk of one root, as observed through the callback of
`filepath.Walk` in `visit`: nodes are offered in traversal order; an
enumeration error aborts the walk with that error; an admitted regular
file's path is sent on the paths channel unless the `done` channel is
already closed, in which case the callback returns the "walk canceled"
error. The `cancel` argument is the state of the `done` channel expressed
in walker-observable terms: `some k` means the channel closes after `k`
successful sends, `none` means it never closes during the walk. Returns
the list of sent paths and the terminal error of the walk. -/
def walkGo (adm : String → Bool) : List Node → Option Nat → List String × Option String
  | [], _ => ([], none)
  | n :: rest, cancel =>
    match n.enumError with
    | some e => ([], some e)
    | none =>
      if n.isRegular && adm n.path then
        match cancel with
        | some 0 => ([], some "walk canceled")
        | some (k + 1) =>
          let out := walkGo adm rest (some k)
          (n.path :: out.1, out.2)
        | none =>
          let out := walkGo adm rest none
          (n.path :: out.1, out.2)
      else walkGo adm rest cancel

/-- The `visit` function: walk the root's nodes with the filter built from
the accept and reject pattern lists. -/
def visit (accepts rejects : List Pattern) (cancel : Option Nat) (nodes : List Node) :
    List String × Option String :=
  walkGo (passesFilter accepts rejects) nodes cancel

/-- The paths of the admitted regular files of a node list, in order. -/
def admittedPaths (adm : String → Bool) (nodes : List Node) : List String :=
  (nodes.filter (fun n => n.isRegular && adm n.path)).map Node.path

/-- The record flowing from the digesters to the writer (struct `entry`). -/
structure Entry where
  path : String
  hash : String
  bucket : String
  size : Nat
  err : Option String
deriving DecidableEq

/-- The filesystem as the digester sees it: opening and reading a path
either yields its content bytes or fails with an error. -/
abbrev FileSys := String → Except String (List Nat)

/-- The body of `digest` for one path: open and read the file; on failure
the entry carries the error, an empty hash and size zero; on success it
carries the content hash and the byte count. `hashFn` abstracts the fixed
SHA-256 hex digest. -/
def digestOne (hashFn : List Nat → String) (fs : FileSys) (bucket path : String) : Entry :=
  match fs path with
  | Except.error e => { path := path, hash := "", bucket := bucket, size := 0, err := some e }
  | Except.ok content =>
      { path := path, hash := hashFn content, bucket := bucket,
        size := content.length, err := none }

/-- All paths of one root digested (absent cancellation every path is
consumed by exactly one worker and yields exactly one entry). -/
def digestAll (hashFn : List Nat → String) (fs : FileSys) (bucket : String)
    (paths : List String) : List Entry :=
  paths.map (digestOne hashFn fs bucket)

/-- One row of the `entries` table: the columns created by `Execute`
(`hash, path, dir, name, bucket, size`, primary key `(hash, path)`). -/
structure Row where
  hash : String
  path : String
  dir : String
  name : String
  bucket : String
  size : Nat
deriving DecidableEq

/-- The `entries` table. -/
abbrev Store := List Row

/-- Two rows collide on the primary key `(hash, path)`. -/
def sameKey (r q : Row) : Bool := q.hash == r.hash && q.path == r.path

/-- `INSERT OR REPLACE INTO entries`: the conflicting row for the
`(hash, path)` key is replaced; otherwise the row is inserted. -/
def upsert (r : Row) (s : Store) : Store :=
  s.filter (fun q => !(sameKey r q)) ++ [r]

/-- Number of rows of the table holding the given `(hash, path)` key. -/
def countKey (h p : String) (s : Store) : Nat :=
  (s.filter (fun q => q.hash == h && q.path == p)).length

/-- A segment-stack pass implementing the path-cleaning of Go's
`filepath.Clean` on slash-separated paths: empty and `.` segments are
dropped, `..` pops the previous segment (or is kept when there is nothing
to pop and the path is relative, or dropped at the root of a rooted path). -/
def cleanStack (rooted : Bool) : List String → List String → List String
  | stack, [] => stack.reverse
  | stack, seg :: rest =>
    if seg = "" ∨ seg = "." then cleanStack rooted stack rest
    else if seg = ".." then
      match stack with
      | [] => if rooted then cleanStack rooted [] rest else cleanStack rooted [".."] rest
      | top :: below =>
        if top = ".." then cleanStack rooted (".." :: top :: below) rest
        else cleanStack rooted below rest
    else cleanStack rooted (seg :: stack) rest

/-- Go's `filepath.Clean` for slash-separated paths. -/
def goClean (p : String) : String :=
  if p = "" then "."
  else
    let rooted := p.startsWith "/"
    let segs := cleanStack rooted [] (p.splitOn "/")
    let body := String.intercalate "/" segs
    if rooted then "/" ++ body
    else if body = "" then "." else body

/-- Go's `filepath.Base`: strip trailing separators, then keep the last
element; `""` gives `"."` and an all-separator path gives `"/"`. -/
def goBase (p : String) : String :=
  if p = "" then "."
  else
    let cs := (p.data.reverse.dropWhile (fun c => c = '/')).reverse
    if cs.isEmpty then "/"
    else String.mk (cs.reverse.takeWhile (fun c => c ≠ '/')).reverse

/-- Go's `filepath.Dir`: everything up to and including the final
separator, cleaned; a path with no separator gives `"."`. -/
def goDir (p : String) : String :=
  goClean (String.mk ((p.data.reverse.dropWhile (fun c => c ≠ '/')).reverse))

/-- The row persisted for an error-free entry, as bound by
`stmt.Exec(e.Hash, e.Path, filepath.Dir(e.Path), filepath.Base(e.Path), e.Bucket, e.Size)`. -/
def rowOf (e : Entry) : Row :=
  { hash := e.hash, path := e.path, dir := goDir e.path, name := goBase e.path,
    bucket := e.bucket, size := e.size }

/-- The writer loop of `Execute` over the drained entries, in arrival
order: an entry carrying an error is logged and skipped with no store
access; otherwise one transaction upserts its row — a transaction failure
(modelled by the oracle `fails`) leaves the store unchanged and the loop
proceeds to the next entry either way. -/
def writeEntries (fails : Entry → Bool) : List Entry → Store → Store
  | [], s => s
  | e :: rest, s =>
    match e.err with
    | some _ => writeEntries fails rest s
    | none => writeEntries fails rest (if fails e then s else upsert (rowOf e) s)

/-- One root's run inside `Execute`: visit the root, digest the admitted
paths, drain the entries through the writer; the root's outcome is the
walk's terminal error. -/
def executeRoot (hashFn : List Nat → String) (fs : FileSys) (fails : Entry → Bool)
    (accepts rejects : List Pattern) (bucket : String) (cancel : Option Nat)
    (nodes : List Node) (s : Store) : Store × Option String :=
  let w := visit accepts rejects cancel nodes
  (writeEntries fails (digestAll hashFn fs bucket w.1) s, w.2)

/-- One root as offered to `Execute`: its cancellation schedule (each root
gets a fresh `done` channel) and its filesystem nodes. -/
abbrev RootSpec := Option Nat × List Node

/-- The sequential loop of `Execute` over the root paths: each root runs to
completion; a non-nil walk error is returned at once and no further root is
started. The result is the final store, the returned error and how many
roots were started. -/
def executeRoots (hashFn : List Nat → String) (fs : FileSys) (fails : Entry → Bool)
    (accepts rejects : List Pattern) (bucket : String) :
    List RootSpec → Store → Store × Option String × Nat
  | [], s => (s, none, 0)
  | root :: rest, s =>
    let r := executeRoot hashFn fs fails accepts rejects bucket root.1 root.2 s
    match r.2 with
    | some e => (r.1, some e, 1)
    | none =>
      let out := executeRoots hashFn fs fails accepts rejects bucket rest r.1
      (out.1, out.2.1, out.2.2 + 1)

/-- The observable outcome of one `Execute` invocation. -/
structure ExecOutcome where
  err : Option String
  storeOpened : Bool
  rootsStarted : Nat
  store : Store
deriving DecidableEq

/-- `Execute` itself: an empty root list fails with "no paths provided"
before the database is opened and before any traversal; otherwise the store
is opened and the roots are processed sequentially. -/
def executeCmd (hashFn : List Nat → String) (fs : FileSys) (fails : Entry → Bool)
    (accepts rejects : List Pattern) (bucket : String)
    (roots : List RootSpec) (s : Store) : ExecOutcome :=
  if roots.isEmpty then
    { err := some "no paths provided", storeOpened := false, rootsStarted := 0, store := s }
  else
    let r := executeRoots hashFn fs fails accepts rejects bucket roots s
    { err := r.2.1, storeOpened := true, rootsStarted := r.2.2, store := r.1 }

/-- A filesystem holding exactly the given files (path, content); any
other path fails to open. -/
def fsOfFiles (files : List (String × List Nat)) : FileSys := fun p =>
  match files.lookup p with
  | some c => Except.ok c
  | none => Except.error "no such file"

/-- State of one root's fan-out/fan-in pipeline: paths the walker has sent
but no digester has received yet are `pending` (in channel order), paths
received by a digester whose entry has not yet reached the writer are
`inflight`, and `delivered` are the paths whose entries the writer has
received. -/
structure PipeState where
  pending : List String
  inflight : Multiset String
  delivered : Multiset String

/-- The initial state of a root's run: every admitted path pending. -/
def initPipe (paths : List String) : PipeState :=
  { pending := paths, inflight := 0, delivered := 0 }

/-- One scheduler step of the pipeline with parallelism `P`, absent
cancellation: a receive on the paths channel hands the next path to
exactly one of the at most `P` digesters; a send on the entries channel
delivers the entry of one in-flight path to the writer. -/
inductive PipeStep (P : Nat) : PipeState → PipeState → Prop
  | take (p : String) (rest : List String) (inf del : Multiset String) :
      Multiset.card inf < P →
      PipeStep P ⟨p :: rest, inf, del⟩ ⟨rest, p ::ₘ inf, del⟩
  | emit (p : String) (pend : List String) (inf del : Multiset String) :
      p ∈ inf →
      PipeStep P ⟨pend, inf, del⟩ ⟨pend, inf.erase p, p ::ₘ del⟩

/-- Any finite interleaving of pipeline steps. -/
def PipeReach (P : Nat) : PipeState → PipeState → Prop :=
  Relation.ReflTransGen (PipeStep P)

/-- A sample hash function used by concrete witness runs. -/
def hashFn0 : List Nat → String := fun c => toString c.length

/-- A sample filesystem on which every open fails. -/
def fsErr0 : FileSys := fun _ => Except.error "x"

/-- A sample node whose enumeration failed. -/
def nodeBad : Node := { path := "d", isRegular := false, enumError := some "io" }

/-- A sample root whose walk fails with the "io" enumeration error. -/
def rootBad : RootSpec := (none, [nodeBad])

/-- A sample empty root. -/
def rootNil : RootSpec := (none, [])

/-- The terminal pipeline state of the sample two-path run. -/
def pipeDone2 : PipeState :=
  { pending := [], inflight := 0, delivered := "b" ::ₘ "a" ::ₘ 0 }

/-! ## Helper lemmas -/

theorem matchesAccepts_eq_all (accepts : List Pattern) (p : String) :
    matchesAccepts accepts p = accepts.all (fun a => a p) := by
  induction accepts with
  | nil => rfl
  | cons a rest ih => by_cases h : a p <;> simp [matchesAccepts, h, ih]

theorem matchesRejects_eq_any (rejects : List Pattern) (p : String) :
    matchesRejects rejects p = rejects.any (fun r => r p) := by
  induction rejects with
  | nil => rfl
  | cons r rest ih => by_cases h : r p <;> simp [matchesRejects, h, ih]

theorem passesFilter_iff (accepts rejects : List Pattern) (p : String) :
    passesFilter accepts rejects p = true ↔
      (∀ a ∈ accepts, a p = true) ∧ (∀ r ∈ rejects, r p = false) := by
  simp [passesFilter, matchesAccepts_eq_all, matchesRejects_eq_any, List.all_eq_true,
    List.any_eq_true]

theorem walkGo_no_cancel (adm : String → Bool) :
    ∀ nodes : List Node, (∀ n ∈ nodes, n.enumError = none) →
      walkGo adm nodes none = (admittedPaths adm nodes, none)
  | [], _ => rfl
  | n :: rest, hn => by
    have hh : n.enumError = none := hn n (List.mem_cons_self n rest)
    have ih := walkGo_no_cancel adm rest (fun m hm => hn m (List.mem_cons_of_mem n hm))
    by_cases hc : (n.isRegular && adm n.path) = true
    · simp [walkGo, hh, hc, ih, admittedPaths, List.filter_cons]
    · simp [walkGo, hh, hc, ih, admittedPaths, List.filter_cons]

theorem upsert_preserves (P : Row → Prop) (r0 : Row) (s : Store)
    (hs : ∀ r ∈ s, P r) (h0 : P r0) : ∀ r ∈ upsert r0 s, P r := by
  intro r hr
  rcases List.mem_append.mp hr with h | h
  · exact hs r (List.mem_of_mem_filter h)
  · rcases List.mem_singleton.mp h with rfl
    exact h0

theorem sameKey_self (r : Row) : sameKey r r = true := by
  simp [sameKey]

theorem upsert_upsert (r : Row) (s : Store) : upsert r (upsert r s) = upsert r s := by
  simp [upsert, List.filter_append, List.filter_filter, sameKey]

theorem countKey_upsert (r : Row) (s : Store) :
    countKey r.hash r.path (upsert r s) = 1 := by
  simp [countKey, upsert, List.filter_append, List.filter_filter, sameKey]

/-! ## Claims -/

/-- C10: invoking the index operation with an empty list of root paths
returns the "no paths provided" error before opening the store, starting
any traversal, or writing any row. -/
theorem empty_paths_error (hashFn : List Nat → String) (fs : FileSys) (fails : Entry → Bool)
    (accepts rejects : List Pattern) (bucket : String) (s : Store) :
    executeCmd hashFn fs fails accepts rejects bucket [] s =
      { err := some "no paths provided", storeOpened := false, rootsStarted := 0, store := s } :=
  rfl

/-- C2: a file whose open or read fails yields an entry that carries the
error; the writer skips such an entry with no store access and proceeds
with the remaining entries; the root's outcome is the walk's terminal
error alone, so a digest error is never fatal. -/
theorem digest_error_nonfatal (hashFn : List Nat → String) (fs : FileSys)
    (bucket path msg : String) (fails : Entry → Bool) (e : Entry) (rest : List Entry)
    (s : Store) (accepts rejects : List Pattern) (cancel : Option Nat) (nodes : List Node)
    (hfs : fs path = Except.error msg) (he : e.err = some msg) :
    (digestOne hashFn fs bucket path).err = some msg ∧
    writeEntries fails (e :: rest) s = writeEntries fails rest s ∧
    (executeRoot hashFn fs fails accepts rejects bucket cancel nodes s).2 =
      (visit accepts rejects cancel nodes).2 := by
  refine ⟨?_, ?_, rfl⟩
  · simp [digestOne, hfs]
  · simp [writeEntries, he]

theorem digest_error_nonfatal_witness :
    ((fun _ => Except.error "boom" : FileSys) "f" = Except.error "boom") ∧
    (({ path := "f", hash := "", bucket := "default", size := 0, err := some "boom" } :
        Entry).err = some "boom") ∧
    ((digestOne (fun _ => "h") (fun _ => Except.error "boom") "default" "f").err =
        some "boom" ∧
      writeEntries (fun _ => false)
          [{ path := "f", hash := "", bucket := "default", size := 0, err := some "boom" }] [] =
        writeEntries (fun _ => false) [] [] ∧
      (executeRoot (fun _ => "h") (fun _ => Except.error "boom") (fun _ => false) [] []
          "default" none [] []).2 = (visit [] [] none []).2) :=
  ⟨rfl, rfl,
    digest_error_nonfatal (fun _ => "h") (fun _ => Except.error "boom") "default" "f" "boom"
      (fun _ => false)
      { path := "f", hash := "", bucket := "default", size := 0, err := some "boom" }
      [] [] [] [] none [] rfl rfl⟩

/-- C7: a persistence failure on an error-free entry leaves the store
unchanged for that entry and the writer proceeds to the next entry without
retrying or aborting the stream; the run's returned error is the walk's
terminal error alone, so the run still succeeds absent a walk error. -/
theorem persist_failure_nonfatal (hashFn : List Nat → String) (fs : FileSys)
    (fails : Entry → Bool) (e : Entry) (rest : List Entry) (s : Store)
    (accepts rejects : List Pattern) (bucket : String) (cancel : Option Nat)
    (nodes : List Node) (he : e.err = none) (hf : fails e = true) :
    writeEntries fails (e :: rest) s = writeEntries fails rest s ∧
    (executeRoot hashFn fs fails accepts rejects bucket cancel nodes s).2 =
      (visit accepts rejects cancel nodes).2 := by
  refine ⟨?_, rfl⟩
  simp [writeEntries, he, hf]

theorem persist_failure_nonfatal_witness :
    (({ path := "f", hash := "h", bucket := "default", size := 1, err := none } :
        Entry).err = none) ∧
    ((fun _ => true : Entry → Bool)
        { path := "f", hash := "h", bucket := "default", size := 1, err := none } = true) ∧
    (writeEntries (fun _ => true)
        [{ path := "f", hash := "h", bucket := "default", size := 1, err := none }] [] =
      writeEntries (fun _ => true) [] [] ∧
    (executeRoot (fun _ => "h") (fun _ => Except.error "x") (fun _ => true) [] []
        "default" none [] []).2 = (visit [] [] none []).2) :=
  ⟨rfl, rfl,
    persist_failure_nonfatal (fun _ => "h") (fun _ => Except.error "x") (fun _ => true)
      { path := "f", hash := "h", bucket := "default", size := 1, err := none }
      [] [] [] [] "default" none [] rfl rfl⟩

/-- C9: every row persisted by the writer stores a `dir` column equal to
`filepath.Dir` of the entry's path and a `name` column equal to
`filepath.Base` of it, provided every pre-existing row does. -/
theorem rows_carry_dir_and_name (fails : Entry → Bool) :
    ∀ (es : List Entry) (s : Store),
      (∀ r ∈ s, r.dir = goDir r.path ∧ r.name = goBase r.path) →
      ∀ r ∈ writeEntries fails es s, r.dir = goDir r.path ∧ r.name = goBase r.path := by
  intro es
  induction es with
  | nil => intro s hs; simpa [writeEntries] using hs
  | cons e rest ih =>
    intro s hs
    cases he : e.err with
    | some m =>
      simpa [writeEntries, he] using ih s hs
    | none =>
      cases hf : fails e with
      | true => simpa [writeEntries, he, hf] using ih s hs
      | false =>
        have hnext : ∀ r ∈ upsert (rowOf e) s,
            r.dir = goDir r.path ∧ r.name = goBase r.path :=
          upsert_preserves _ (rowOf e) s hs ⟨rfl, rfl⟩
        simpa [writeEntries, he, hf] using ih (upsert (rowOf e) s) hnext

theorem rows_carry_dir_and_name_witness :
    (∀ r ∈ ([] : Store), r.dir = goDir r.path ∧ r.name = goBase r.path) ∧
    ∀ r ∈ writeEntries (fun _ => false)
        [{ path := "/a/b", hash := "h", bucket := "default", size := 3, err := none }] [],
      r.dir = goDir r.path ∧ r.name = goBase r.path :=
  ⟨by simp,
    rows_carry_dir_and_name (fun _ => false)
      [{ path := "/a/b", hash := "h", bucket := "default", size := 3, err := none }] []
      (by simp)⟩

/-- C4: persisting is idempotent per `(hash, path)` key: indexing the same
unchanged file at the same path a second time leaves the store exactly as
after the first run, and the store holds exactly one row for that key. -/
theorem upsert_idempotence (hashFn : List Nat → String) (fs : FileSys)
    (bucket path : String) (content : List Nat) (s : Store)
    (hfs : fs path = Except.ok content) :
    writeEntries (fun _ => false) [digestOne hashFn fs bucket path]
        (writeEntries (fun _ => false) [digestOne hashFn fs bucket path] s) =
      writeEntries (fun _ => false) [digestOne hashFn fs bucket path] s ∧
    countKey (digestOne hashFn fs bucket path).hash (digestOne hashFn fs bucket path).path
        (writeEntries (fun _ => false) [digestOne hashFn fs bucket path] s) = 1 := by
  have he : (digestOne hashFn fs bucket path).err = none := by simp [digestOne, hfs]
  have hw : ∀ t : Store,
      writeEntries (fun _ => false) [digestOne hashFn fs bucket path] t =
        upsert (rowOf (digestOne hashFn fs bucket path)) t := by
    intro t; simp [writeEntries, he]
  simp only [hw]
  exact ⟨upsert_upsert _ _, countKey_upsert (rowOf (digestOne hashFn fs bucket path)) s⟩

theorem upsert_idempotence_witness :
    ((fun p => if p = "f" then Except.ok [1, 2] else Except.error "x" : FileSys) "f" =
        Except.ok [1, 2]) ∧
    (writeEntries (fun _ => false)
        [digestOne (fun c => toString c.length)
          (fun p => if p = "f" then Except.ok [1, 2] else Except.error "x") "default" "f"]
        (writeEntries (fun _ => false)
          [digestOne (fun c => toString c.length)
            (fun p => if p = "f" then Except.ok [1, 2] else Except.error "x") "default" "f"]
          []) =
      writeEntries (fun _ => false)
        [digestOne (fun c => toString c.length)
          (fun p => if p = "f" then Except.ok [1, 2] else Except.error "x") "default" "f"]
        [] ∧
    countKey
        (digestOne (fun c => toString c.length)
          (fun p => if p = "f" then Except.ok [1, 2] else Except.error "x") "default" "f").hash
        (digestOne (fun c => toString c.length)
          (fun p => if p = "f" then Except.ok [1, 2] else Except.error "x") "default" "f").path
        (writeEntries (fun _ => false)
          [digestOne (fun c => toString c.length)
            (fun p => if p = "f" then Except.ok [1, 2] else Except.error "x") "default" "f"]
          []) = 1) :=
  ⟨rfl,
    upsert_idempotence (fun c => toString c.length)
      (fun p => if p = "f" then Except.ok [1, 2] else Except.error "x") "default" "f"
      [1, 2] [] rfl⟩

theorem admittedPaths_cons_pos (adm : String → Bool) (n : Node) (rest : List Node)
    (hc : (n.isRegular && adm n.path) = true) :
    admittedPaths adm (n :: rest) = n.path :: admittedPaths adm rest := by
  simp [admittedPaths, List.filter_cons, hc]

theorem admittedPaths_cons_neg (adm : String → Bool) (n : Node) (rest : List Node)
    (hc : ¬(n.isRegular && adm n.path) = true) :
    admittedPaths adm (n :: rest) = admittedPaths adm rest := by
  simp [admittedPaths, List.filter_cons, hc]

/-- C1 (amended): a candidate path reaches the pipeline iff some regular
file node carries it and it matches every accept pattern (so an empty
accept set admits everything) and none of the reject patterns; a path
matching any reject pattern is never emitted. -/
theorem filter_admission (accepts rejects : List Pattern) (nodes : List Node)
    (hn : ∀ n ∈ nodes, n.enumError = none) (p : String) :
    p ∈ (visit accepts rejects none nodes).1 ↔
      ∃ n ∈ nodes, n.isRegular = true ∧ n.path = p ∧
        (∀ a ∈ accepts, a p = true) ∧ (∀ r ∈ rejects, r p = false) := by
  rw [visit, walkGo_no_cancel _ nodes hn]
  simp only [admittedPaths, List.mem_map, List.mem_filter]
  constructor
  · rintro ⟨n, ⟨hmem, hcond⟩, rfl⟩
    rw [Bool.and_eq_true] at hcond
    exact ⟨n, hmem, hcond.1, rfl, (passesFilter_iff _ _ _).mp hcond.2⟩
  · rintro ⟨n, hmem, hreg, rfl, hconds⟩
    exact ⟨n, ⟨hmem, by
      rw [Bool.and_eq_true]
      exact ⟨hreg, (passesFilter_iff _ _ _).mpr hconds⟩⟩, rfl⟩

theorem filter_admission_witness :
    (∀ n ∈ [({ path := "x", isRegular := true, enumError := none } : Node)],
        n.enumError = none) ∧
    ("x" ∈ (visit [] [] none [{ path := "x", isRegular := true, enumError := none }]).1 ↔
      ∃ n ∈ [({ path := "x", isRegular := true, enumError := none } : Node)],
        n.isRegular = true ∧ n.path = "x" ∧
        (∀ a ∈ ([] : List Pattern), a "x" = true) ∧
        (∀ r ∈ ([] : List Pattern), r "x" = false)) :=
  ⟨by simp,
    filter_admission [] [] [{ path := "x", isRegular := true, enumError := none }]
      (by simp) "x"⟩

/-- C1 is refuted as literally stated: with the two accept patterns
matching exactly "aa" and exactly "ab" and no reject patterns, the path
"aa" matches at least one accept pattern, so the claim admits it, yet the
walk callback skips it (the code demands a match of every accept pattern),
and the walker emits nothing for a root containing it. -/
theorem filter_admission_counterexample :
    specPasses [fun s => s == "aa", fun s => s == "ab"] [] "aa" = true ∧
    passesFilter [fun s => s == "aa", fun s => s == "ab"] [] "aa" = false ∧
    (visit [fun s => s == "aa", fun s => s == "ab"] [] none
        [{ path := "aa", isRegular := true, enumError := none }]).1 = [] := by
  refine ⟨by decide, by decide, by decide⟩

/-- C8: if the cancellation signal becomes active after `k` sends while the
walker still has admitted paths to send, the walker emits exactly the first
`k` admitted paths, abandons the traversal, and its terminal error is the
"walk canceled" cancellation error. -/
theorem cancellation_aborts_walk (adm : String → Bool) :
    ∀ (nodes : List Node) (k : Nat),
      (∀ n ∈ nodes, n.enumError = none) →
      k < (admittedPaths adm nodes).length →
      walkGo adm nodes (some k) =
        ((admittedPaths adm nodes).take k, some "walk canceled")
  | [], k, _, hk => by simp [admittedPaths] at hk
  | n :: rest, k, hn, hk => by
    have hh : n.enumError = none := hn n (List.mem_cons_self n rest)
    have hn' : ∀ m ∈ rest, m.enumError = none :=
      fun m hm => hn m (List.mem_cons_of_mem n hm)
    by_cases hc : (n.isRegular && adm n.path) = true
    · rw [admittedPaths_cons_pos adm n rest hc] at hk ⊢
      cases k with
      | zero => simp [walkGo, hh, hc]
      | succ k' =>
        have hlen : k' < (admittedPaths adm rest).length := by
          simpa using Nat.lt_of_succ_lt_succ hk
        have ih := cancellation_aborts_walk adm rest k' hn' hlen
        simp [walkGo, hh, hc, ih]
    · rw [admittedPaths_cons_neg adm n rest hc] at hk ⊢
      have ih := cancellation_aborts_walk adm rest k hn' hk
      simp [walkGo, hh, hc, ih]

theorem cancellation_aborts_walk_witness :
    (∀ n ∈ [({ path := "a", isRegular := true, enumError := none } : Node),
            { path := "b", isRegular := true, enumError := none }],
        n.enumError = none) ∧
    1 < (admittedPaths (fun _ => true)
          [({ path := "a", isRegular := true, enumError := none } : Node),
           { path := "b", isRegular := true, enumError := none }]).length ∧
    walkGo (fun _ => true)
        [({ path := "a", isRegular := true, enumError := none } : Node),
         { path := "b", isRegular := true, enumError := none }] (some 1) =
      ((admittedPaths (fun _ => true)
          [({ path := "a", isRegular := true, enumError := none } : Node),
           { path := "b", isRegular := true, enumError := none }]).take 1,
        some "walk canceled") :=
  ⟨by simp, by decide,
    cancellation_aborts_walk (fun _ => true)
      [{ path := "a", isRegular := true, enumError := none },
       { path := "b", isRegular := true, enumError := none }] 1 (by simp) (by decide)⟩

/-- C6: if every root of `pre` completes without a walk error and the next
root `bad` terminates with walk error `e`, then the whole invocation over
`pre ++ bad :: rest` returns `e`, its store is the one drained through
`bad` (that root's entries were consumed before the error check), and only
`pre.length + 1` roots were started: no root of `rest` is attempted. -/
theorem walk_error_short_circuit (hashFn : List Nat → String) (fs : FileSys)
    (fails : Entry → Bool) (accepts rejects : List Pattern) (bucket : String) :
    ∀ (pre : List RootSpec) (bad : RootSpec) (rest : List RootSpec) (s : Store) (e : String),
      (executeRoots hashFn fs fails accepts rejects bucket pre s).2.1 = none →
      (executeRoot hashFn fs fails accepts rejects bucket bad.1 bad.2
          (executeRoots hashFn fs fails accepts rejects bucket pre s).1).2 = some e →
      executeRoots hashFn fs fails accepts rejects bucket (pre ++ bad :: rest) s =
        ((executeRoot hashFn fs fails accepts rejects bucket bad.1 bad.2
            (executeRoots hashFn fs fails accepts rejects bucket pre s).1).1,
          some e, pre.length + 1)
  | [], bad, rest, s, e, _, hbad => by
    simp only [executeRoots, List.nil_append] at *
    simp [executeRoots, hbad]
  | r :: pre', bad, rest, s, e, hpre, hbad => by
    cases hr : (executeRoot hashFn fs fails accepts rejects bucket r.1 r.2 s).2 with
    | some e' =>
      exfalso
      simp [executeRoots, hr] at hpre
    | none =>
      have ih := walk_error_short_circuit hashFn fs fails accepts rejects bucket pre' bad rest
        (executeRoot hashFn fs fails accepts rejects bucket r.1 r.2 s).1 e
        (by simpa [executeRoots, hr] using hpre)
        (by simpa [executeRoots, hr] using hbad)
      simp [executeRoots, hr, ih,
        show (executeRoots hashFn fs fails accepts rejects bucket (r :: pre') s).1 =
          (executeRoots hashFn fs fails accepts rejects bucket pre'
            (executeRoot hashFn fs fails accepts rejects bucket r.1 r.2 s).1).1 from by
          simp [executeRoots, hr]] at *

theorem walk_error_short_circuit_witness :
    ((executeRoots hashFn0 fsErr0 (fun _ => false) [] [] "default" [] []).2.1 = none) ∧
    ((executeRoot hashFn0 fsErr0 (fun _ => false) [] [] "default" rootBad.1 rootBad.2
        (executeRoots hashFn0 fsErr0 (fun _ => false) [] [] "default" [] []).1).2 =
      some "io") ∧
    executeRoots hashFn0 fsErr0 (fun _ => false) [] [] "default"
        ([] ++ rootBad :: [rootNil]) [] =
      ((executeRoot hashFn0 fsErr0 (fun _ => false) [] [] "default" rootBad.1 rootBad.2
          (executeRoots hashFn0 fsErr0 (fun _ => false) [] [] "default" [] []).1).1,
        some "io", ([] : List RootSpec).length + 1) :=
  ⟨rfl, rfl,
    walk_error_short_circuit hashFn0 fsErr0 (fun _ => false) [] [] "default" []
      rootBad [rootNil] [] "io" rfl rfl⟩

theorem digestAll_congr (hashFn : List Nat → String) (fs fs' : FileSys) (bucket : String) :
    ∀ paths : List String, (∀ p ∈ paths, fs p = fs' p) →
      digestAll hashFn fs bucket paths = digestAll hashFn fs' bucket paths
  | [], _ => rfl
  | p :: rest, h => by
    have hp : fs p = fs' p := h p (List.mem_cons_self p rest)
    have ih := digestAll_congr hashFn fs fs' bucket rest
      (fun q hq => h q (List.mem_cons_of_mem p hq))
    simp only [digestAll, List.map_cons] at *
    rw [ih, show digestOne hashFn fs bucket p = digestOne hashFn fs' bucket p from by
      simp [digestOne, hp]]

theorem digestAll_fsOfFiles (hashFn : List Nat → String) (bucket : String) :
    ∀ files : List (String × List Nat), (files.map Prod.fst).Nodup →
      digestAll hashFn (fsOfFiles files) bucket (files.map Prod.fst) =
        files.map (fun f =>
          { path := f.1, hash := hashFn f.2, bucket := bucket,
            size := f.2.length, err := none })
  | [], _ => rfl
  | f :: rest, hnd => by
    have hnotin : f.1 ∉ rest.map Prod.fst := (List.nodup_cons.mp (by simpa using hnd)).1
    have hnd' : (rest.map Prod.fst).Nodup := (List.nodup_cons.mp (by simpa using hnd)).2
    have hhead : fsOfFiles (f :: rest) f.1 = Except.ok f.2 := by
      simp [fsOfFiles, List.lookup]
    have htail : ∀ q ∈ rest.map Prod.fst, fsOfFiles (f :: rest) q = fsOfFiles rest q := by
      intro q hq
      have hne : (q == f.1) = false := by
        rw [beq_eq_false_iff_ne]
        intro hcontra
        exact hnotin (hcontra ▸ hq)
      simp [fsOfFiles, List.lookup, hne]
    have ih := digestAll_fsOfFiles hashFn bucket rest hnd'
    simp only [List.map_cons, digestAll] at *
    rw [show digestOne hashFn (fsOfFiles (f :: rest)) bucket f.1 =
        { path := f.1, hash := hashFn f.2, bucket := bucket,
          size := f.2.length, err := none } from by simp [digestOne, hhead]]
    rw [show (rest.map Prod.fst).map (digestOne hashFn (fsOfFiles (f :: rest)) bucket) =
        (rest.map Prod.fst).map (digestOne hashFn (fsOfFiles rest) bucket) from
      digestAll_congr hashFn (fsOfFiles (f :: rest)) (fsOfFiles rest) bucket
        (rest.map Prod.fst) htail]
    rw [ih]

theorem writeEntries_nofail_fresh :
    ∀ (es : List Entry) (s : Store),
      (∀ e ∈ es, e.err = none) →
      (∀ e ∈ es, ∀ r ∈ s, r.path ≠ e.path) →
      (es.map Entry.path).Nodup →
      writeEntries (fun _ => false) es s = s ++ es.map rowOf
  | [], s, _, _, _ => by simp [writeEntries]
  | e :: rest, s, herr, hfresh, hnd => by
    have he : e.err = none := herr e (List.mem_cons_self e rest)
    have hup : upsert (rowOf e) s = s ++ [rowOf e] := by
      unfold upsert
      congr 1
      apply List.filter_eq_self.mpr
      intro r hr
      have hne : r.path ≠ e.path := hfresh e (List.mem_cons_self e rest) r hr
      simp [sameKey, rowOf]
      exact Or.inr hne
    have hnotin : e.path ∉ rest.map Entry.path := (List.nodup_cons.mp (by simpa using hnd)).1
    have ih := writeEntries_nofail_fresh rest (s ++ [rowOf e])
      (fun x hx => herr x (List.mem_cons_of_mem e hx))
      (by
        intro x hx r hr
        rcases List.mem_append.mp hr with h | h
        · exact hfresh x (List.mem_cons_of_mem e hx) r h
        · rcases List.mem_singleton.mp h with rfl
          show (rowOf e).path ≠ x.path
          simp only [rowOf]
          intro hcontra
          exact hnotin (hcontra ▸ List.mem_map_of_mem Entry.path hx))
      ((List.nodup_cons.mp (by simpa using hnd)).2)
    simp only [writeEntries, he]
    rw [show (if (fun _ => false : Entry → Bool) e = true then s else upsert (rowOf e) s) =
      s ++ [rowOf e] from by simp [hup]]
    rw [ih]
    simp [List.append_assoc]

/-- C5: indexing N byte-identical files at N pairwise distinct paths leaves
exactly N rows in the store, all sharing the one hash of that content. -/
theorem duplicate_detection (hashFn : List Nat → String) (bucket : String)
    (files : List (String × List Nat)) (c : List Nat)
    (hc : ∀ f ∈ files, f.2 = c) (hnd : (files.map Prod.fst).Nodup) :
    (writeEntries (fun _ => false)
        (digestAll hashFn (fsOfFiles files) bucket (files.map Prod.fst)) []).length =
      files.length ∧
    ∀ r ∈ writeEntries (fun _ => false)
        (digestAll hashFn (fsOfFiles files) bucket (files.map Prod.fst)) [],
      r.hash = hashFn c := by
  rw [digestAll_fsOfFiles hashFn bucket files hnd]
  rw [writeEntries_nofail_fresh _ []
    (by
      intro e he
      rcases List.mem_map.mp he with ⟨f, _, rfl⟩
      rfl)
    (by simp)
    (by simpa [Function.comp] using hnd)]
  constructor
  · simp
  · intro r hr
    simp only [List.nil_append, List.map_map, List.mem_map] at hr
    rcases hr with ⟨f, hf, rfl⟩
    simp [rowOf, Function.comp, hc f hf]

theorem duplicate_detection_witness :
    (∀ f ∈ [("a", [7]), ("b", [7])], f.2 = ([7] : List Nat)) ∧
    ((([("a", [7]), ("b", [7])] : List (String × List Nat)).map Prod.fst).Nodup) ∧
    ((writeEntries (fun _ => false)
        (digestAll hashFn0 (fsOfFiles [("a", [7]), ("b", [7])]) "default"
          (([("a", [7]), ("b", [7])] : List (String × List Nat)).map Prod.fst)) []).length =
      ([("a", [7]), ("b", [7])] : List (String × List Nat)).length ∧
    ∀ r ∈ writeEntries (fun _ => false)
        (digestAll hashFn0 (fsOfFiles [("a", [7]), ("b", [7])]) "default"
          (([("a", [7]), ("b", [7])] : List (String × List Nat)).map Prod.fst)) [],
      r.hash = hashFn0 [7]) :=
  ⟨by decide, by decide,
    duplicate_detection hashFn0 "default" [("a", [7]), ("b", [7])] [7]
      (by decide) (by decide)⟩

theorem pipeStep_invariant {P : Nat} {s t : PipeState} (h : PipeStep P s t) :
    (↑t.pending : Multiset String) + t.inflight + t.delivered =
      (↑s.pending : Multiset String) + s.inflight + s.delivered := by
  cases h with
  | take p rest inf del hcard =>
    show (↑rest : Multiset String) + (p ::ₘ inf) + del =
      (↑(p :: rest) : Multiset String) + inf + del
    simp [Multiset.add_cons, Multiset.cons_add, ← Multiset.cons_coe]
  | emit p pend inf del hmem =>
    show (↑pend : Multiset String) + inf.erase p + (p ::ₘ del) =
      (↑pend : Multiset String) + inf + del
    conv_rhs => rw [← Multiset.cons_erase hmem]
    simp [Multiset.add_cons, Multiset.cons_add]

theorem pipeReach_invariant {P : Nat} {s t : PipeState} (h : PipeReach P s t) :
    (↑t.pending : Multiset String) + t.inflight + t.delivered =
      (↑s.pending : Multiset String) + s.inflight + s.delivered := by
  induction h with
  | refl => rfl
  | tail _ hstep ih => rw [pipeStep_invariant hstep, ih]

/-- C3: for any parallelism P ≥ 1 and any interleaved execution of the
pipeline over M admitted paths, absent cancellation, once the path channel
is drained and no digester holds an in-flight path, the writer has received
the entries of exactly the M input paths: the delivered multiset equals the
input paths, so no path is lost or delivered twice. -/
theorem no_loss_no_duplication (P : Nat) (hP : 1 ≤ P) (paths : List String) (s : PipeState)
    (hreach : PipeReach P (initPipe paths) s)
    (hpend : s.pending = []) (hinf : s.inflight = 0) :
    s.delivered = (↑paths : Multiset String) ∧
      Multiset.card s.delivered = paths.length := by
  have hinv := pipeReach_invariant hreach
  rw [hpend, hinf] at hinv
  simp [initPipe] at hinv
  exact ⟨hinv, by rw [hinv]; simp⟩

theorem no_loss_no_duplication_witness :
    1 ≤ 1 ∧
    PipeReach 1 (initPipe ["a", "b"]) pipeDone2 ∧
    pipeDone2.pending = [] ∧
    pipeDone2.inflight = 0 ∧
    (pipeDone2.delivered = (↑["a", "b"] : Multiset String) ∧
      Multiset.card pipeDone2.delivered = ["a", "b"].length) := by
  have h1 : PipeStep 1 (initPipe ["a", "b"])
      { pending := ["b"], inflight := "a" ::ₘ 0, delivered := 0 } :=
    PipeStep.take "a" ["b"] 0 0 (by simp)
  have h2 : PipeStep 1 { pending := ["b"], inflight := "a" ::ₘ 0, delivered := 0 }
      { pending := ["b"], inflight := 0, delivered := "a" ::ₘ 0 } := by
    simpa using PipeStep.emit "a" ["b"] ("a" ::ₘ 0) 0 (by simp)
  have h3 : PipeStep 1 { pending := ["b"], inflight := 0, delivered := "a" ::ₘ 0 }
      { pending := [], inflight := "b" ::ₘ 0, delivered := "a" ::ₘ 0 } :=
    PipeStep.take "b" [] 0 ("a" ::ₘ 0) (by simp)
  have h4 : PipeStep 1 { pending := [], inflight := "b" ::ₘ 0, delivered := "a" ::ₘ 0 }
      pipeDone2 := by
    simpa [pipeDone2] using PipeStep.emit "b" [] ("b" ::ₘ 0) ("a" ::ₘ 0) (by simp)
  have hreach : PipeReach 1 (initPipe ["a", "b"]) pipeDone2 :=
    Relation.ReflTransGen.head h1 (Relation.ReflTransGen.head h2
      (Relation.ReflTransGen.head h3 (Relation.ReflTransGen.single h4)))
  exact ⟨le_refl 1, hreach, rfl, rfl,
    no_loss_no_duplication 1 (le_refl 1) ["a", "b"] _ hreach rfl rfl⟩

end Dedup
